import Mathlib

/-!
Shallow embedding of the peer-synchronization core of the jotto repository:
the scoring engine (`game-logic`), and the host-side session-manager handlers
of `P2PGameManager` (the BroadcastChannel variant, whose handlers are the ones
registered in `setupEventListeners`).  Machine integers are modelled as `Nat`
(clock readings come from `Date.now()` and are non-negative); strings are
Lean `String`s, with JavaScript's per-character `toLowerCase`/`toUpperCase`
modelled by `Char.toLower`/`Char.toUpper` (faithful on the alphabetic inputs
the program validates).
-/

namespace Jotto

/-! ## Scoring engine (`game-logic`) -/

/-- One character of the regex class `[A-Za-z]`. -/
def isAlphaChar (c : Char) : Bool :=
  ('A' ≤ c && c ≤ 'Z') || ('a' ≤ c && c ≤ 'z')

/-- The test `/^[A-Za-z]+$/.test(word)`: non-empty and every character alphabetic. -/
def regexAlphaTest (l : List Char) : Bool :=
  !l.isEmpty && l.all isAlphaChar

/-- `validateWord(word)`: `word.length === 5 && /^[A-Za-z]+$/.test(word)`. -/
def validateWord (word : String) : Bool :=
  word.length == 5 && regexAlphaTest word.data

/-- `word.toLowerCase().split('')`: the character list of a word, lowercased
per character. -/
def lcList (s : String) : List Char :=
  s.data.map Char.toLower

/-- JS `word.toUpperCase()`: the word uppercased per character. -/
def toUpperStr (s : String) : String :=
  String.mk (s.data.map Char.toUpper)

/-- The frequency-table lookup `count[letter]` built by `forEach` in
`calculateCommonLetters`: the number of occurrences of `c` in `l`. -/
def countOcc (l : List Char) (c : Char) : Nat :=
  (l.filter (fun x => x == c)).length

/-- `calculateCommonLetters(hostWord, guessWord)`: lowercase both words, build
letter-frequency tables, and for each distinct letter of the guess whose host
count is non-zero (the truthy test `if (hostCount[letter])`) add
`min(hostCount[letter], guessCount[letter])`. -/
def calculateCommonLetters (hostWord guessWord : String) : Nat :=
  let hostLetters := lcList hostWord
  let guessLetters := lcList guessWord
  (guessLetters.dedup).foldl
    (fun acc letter =>
      if countOcc hostLetters letter ≠ 0 then
        acc + min (countOcc hostLetters letter) (countOcc guessLetters letter)
      else acc)
    0

/-- `isWordCorrect(hostWord, guessWord)`: case-insensitive equality. -/
def isWordCorrect (hostWord guessWord : String) : Bool :=
  lcList hostWord == lcList guessWord

/-- The base-36 digit characters produced by `Number.prototype.toString(36)`:
`0`–`9` then `a`–`z`. -/
def digit36 (d : Nat) : Char :=
  if d < 10 then Char.ofNat (48 + d) else Char.ofNat (87 + d)

/-- Modelled JS semantics of `Math.random().toString(36)`: a value in `[0,1)`
renders as `"0"` when it is exactly `0` (or needs no fractional digits) and
otherwise as `"0."` followed by its base-36 fraction digits.  The randomness
input is the digit list. -/
def toString36frac (ds : List Nat) : List Char :=
  if ds.isEmpty then ['0'] else '0' :: '.' :: ds.map digit36

/-- `generateGameId()`: `Math.random().toString(36).substring(2, 8).toUpperCase()`,
as a function of the random base-36 fraction digits. -/
def generateGameId (ds : List Nat) : String :=
  String.mk ((((toString36frac ds).drop 2).take 6).map Char.toUpper)

/-- A character that is a decimal digit or an uppercase letter. -/
def isUpperOrDigit (c : Char) : Bool :=
  ('0' ≤ c && c ≤ '9') || ('A' ≤ c && c ≤ 'Z')

/-! ## Data model (`game-logic` interfaces) -/

inductive PlayerStatus where
  | playing
  | finished
  | disconnected
deriving DecidableEq, Repr

inductive SessionStatus where
  | waiting
  | playing
  | finished
deriving DecidableEq, Repr

structure Guess where
  word : String
  commonLetters : Nat
  timestamp : Nat
deriving DecidableEq, Repr

structure Player where
  id : String
  name : String
  guesses : List Guess
  timeUsed : Nat
  status : PlayerStatus
  joinedAt : Nat
deriving DecidableEq, Repr

structure GameState where
  gameId : String
  hostWord : String
  players : List Player
  status : SessionStatus
  startTime : Option Nat
deriving DecidableEq, Repr

/-! ## Session manager: host-side handlers of `P2PGameManager`

Each handler is embedded as a pure function from the previous `GameState`
(plus the clock reading `Date.now()` where the source reads it) to the new
`GameState` together with the list of messages sent over the transport, in
send order.  `isHost` is `true` throughout: these functions model the bodies
of the handlers under their `if (this.isHost && this.gameState)` guard. -/

/-- An outbound transport message. -/
inductive Msg where
  | state (gs : GameState)
  | playerJoined (p : Player)
  | finished (playerId : String) (finalTime : Nat)
  | guess (playerId : String) (g : Guess)
  | error (target : String) (text : String)
deriving DecidableEq, Repr

/-- `broadcastGameState`'s "safe" snapshot: the spread copy of the state with
`hostWord: this.isHost ? this.gameState.hostWord : '****'`. -/
def safeGameState (isHost : Bool) (gs : GameState) : GameState :=
  { gs with hostWord := if isHost then gs.hostWord else "****" }

/-- Replace the first element satisfying `pred` by its image under `f`
(the JS pattern `const x = list.find(...); mutate x`). -/
def updateFirst (pred : α → Bool) (f : α → α) : List α → List α
  | [] => []
  | x :: xs => if pred x then f x :: xs else x :: updateFirst pred f xs

/-- `floor((now - startTime) / 1000)` under the truthy guard
`this.gameState.startTime ? ... : 0`.  `Nat` subtraction matches the JS
floor for `startTime ≤ now`, which holds whenever `startTime` was stamped
from the same non-decreasing clock. -/
def elapsedSeconds (startTime : Option Nat) (now : Nat) : Nat :=
  match startTime with
  | some st => if st = 0 then 0 else (now - st) / 1000
  | none => 0

/-- `handlePlayerGuess(playerId, guess)` (host branch): no-op for an unknown or
finished player; an error reply for an invalid word; otherwise score the word,
record the guess and `timeUsed`, on an exact match mark the player finished,
announce it, and set the session `finished` when every non-disconnected player
is finished; finally broadcast the guess and a state snapshot. -/
def handlePlayerGuess (gs : GameState) (now : Nat) (playerId : String)
    (word : String) : GameState × List Msg :=
  match gs.players.find? (fun p => p.id == playerId) with
  | none => (gs, [])
  | some player =>
    if player.status = PlayerStatus.finished then (gs, [])
    else if !validateWord word then
      (gs, [Msg.error playerId "Invalid word. Must be a 5-letter word."])
    else
      let commonLetters := calculateCommonLetters gs.hostWord (toUpperStr word)
      let timeUsed := elapsedSeconds gs.startTime now
      let processedGuess : Guess :=
        { word := toUpperStr word, commonLetters := commonLetters, timestamp := now }
      let players1 := updateFirst (fun p => p.id == playerId)
        (fun p => { p with guesses := p.guesses ++ [processedGuess], timeUsed := timeUsed })
        gs.players
      let correct := isWordCorrect gs.hostWord word
      let players2 :=
        if correct then
          updateFirst (fun p => p.id == playerId)
            (fun p => { p with status := PlayerStatus.finished }) players1
        else players1
      let activePlayers := players2.filter (fun p => decide (p.status ≠ PlayerStatus.disconnected))
      let finishedPlayers := activePlayers.filter (fun p => decide (p.status = PlayerStatus.finished))
      let status' :=
        if correct && (finishedPlayers.length == activePlayers.length) then
          SessionStatus.finished
        else gs.status
      let gs' := { gs with players := players2, status := status' }
      (gs', (if correct then [Msg.finished playerId timeUsed] else [])
        ++ [Msg.guess playerId processedGuess, Msg.state (safeGameState true gs')])

/-- `handleJoinRequest(player)` (host branch): reject a duplicate display name
with a directed error, otherwise append the player and broadcast
`game:player-joined` and a state snapshot. -/
def handleJoinRequest (gs : GameState) (p : Player) : GameState × List Msg :=
  match gs.players.find? (fun q => q.name == p.name) with
  | some _ => (gs, [Msg.error p.id "Player name already taken in this game."])
  | none =>
    let gs' := { gs with players := gs.players ++ [p] }
    (gs', [Msg.playerJoined p, Msg.state (safeGameState true gs')])

/-- `handlePlayerJoined(player)` (host branch): reject a duplicate display
name, otherwise append the player and, when this makes two or more players
while the session is still `waiting`, switch to `playing` and stamp
`startTime`; then broadcast a snapshot and `game:player-joined`. -/
def handlePlayerJoined (gs : GameState) (now : Nat) (p : Player) : GameState × List Msg :=
  match gs.players.find? (fun q => q.name == p.name) with
  | some _ => (gs, [Msg.error p.id "Player name already taken in this game."])
  | none =>
    let players' := gs.players ++ [p]
    let transition := players'.length ≥ 2 ∧ gs.status = SessionStatus.waiting
    let status' := if transition then SessionStatus.playing else gs.status
    let startTime' := if transition then some now else gs.startTime
    let gs' := { gs with players := players', status := status', startTime := startTime' }
    (gs', [Msg.state (safeGameState true gs'), Msg.playerJoined p])

/-- `handlePlayerLeft(playerId)` on the host: mark the player `disconnected`
(if present) and broadcast a snapshot. -/
def handlePlayerLeft (gs : GameState) (playerId : String) : GameState × List Msg :=
  match gs.players.find? (fun p => p.id == playerId) with
  | none => (gs, [])
  | some _ =>
    let gs' := { gs with
      players := updateFirst (fun p => p.id == playerId)
        (fun p => { p with status := PlayerStatus.disconnected }) gs.players }
    (gs', [Msg.state (safeGameState true gs')])

/-- JS `String.prototype.trim()`: strip leading and trailing whitespace. -/
def trimStr (s : String) : String :=
  String.mk (((s.data.dropWhile Char.isWhitespace).reverse.dropWhile
    Char.isWhitespace).reverse)

/-- `createGame(hostWord, playerName)`: validate the secret and the name, then
build the initial state (host player, status `waiting`, `startTime` stamped). -/
def createGame (hostWord playerName : String) (myId gameId : String) (now : Nat) :
    Except String GameState :=
  if !validateWord hostWord then
    Except.error "Invalid host word. Must be a 5-letter word."
  else if (trimStr playerName).isEmpty then
    Except.error "Player name is required."
  else
    Except.ok
      { gameId := gameId
        hostWord := toUpperStr hostWord
        players := [{ id := myId, name := trimStr playerName, guesses := [],
                      timeUsed := 0, status := PlayerStatus.playing, joinedAt := now }]
        status := SessionStatus.waiting
        startTime := some now }

/-- The `game:state` payloads among a list of outbound messages. -/
def broadcastStateMsgs (msgs : List Msg) : List GameState :=
  msgs.filterMap (fun m => match m with | Msg.state g => some g | _ => none)

/-! ## Host event loop

The host's registered handlers (`setupEventListeners`), as a step function
over inbound events, each carrying the `Date.now()` reading at which the host
processes it. -/

inductive HostEvent where
  | joinReq (p : Player)
  | playerJoined (p : Player)
  | guessEv (playerId : String) (word : String)
  | leftEv (playerId : String)
deriving DecidableEq, Repr

/-- Dispatch one inbound event to the corresponding host handler. -/
def hostStep (now : Nat) (e : HostEvent) (gs : GameState) : GameState × List Msg :=
  match e with
  | HostEvent.joinReq p => handleJoinRequest gs p
  | HostEvent.playerJoined p => handlePlayerJoined gs now p
  | HostEvent.guessEv pid w => handlePlayerGuess gs now pid w
  | HostEvent.leftEv pid => handlePlayerLeft gs pid

/-- Run a timed event trace through the host's handlers. -/
def runHost : List (Nat × HostEvent) → GameState → GameState
  | [], gs => gs
  | (now, e) :: rest, gs => runHost rest (hostStep now e gs).1

/-- The `timeUsed` of the player with the given id, when present. -/
def timeUsedOf (gs : GameState) (pid : String) : Option Nat :=
  (gs.players.find? (fun p => p.id == pid)).map Player.timeUsed

/-- Events that never re-stamp `startTime`: join-request admissions carrying
a fresh player record (`timeUsed = 0`, as `joinGame` builds it), guesses and
disconnects.  A `game:player-joined` event is excluded: processed while
`waiting`, it re-stamps `startTime`. -/
def admissibleEvent : HostEvent → Bool
  | HostEvent.joinReq p => p.timeUsed == 0
  | HostEvent.playerJoined _ => false
  | HostEvent.guessEv _ _ => true
  | HostEvent.leftEv _ => true

/-- The clock readings of a trace are non-decreasing and start at `t0` or later. -/
def chrono : Nat → List (Nat × HostEvent) → Bool
  | _, [] => true
  | t, (n, _) :: rest => decide (t ≤ n) && chrono n rest

/-- Every recorded `timeUsed` is at most the elapsed time at clock `now`. -/
def TimeInv (gs : GameState) (now : Nat) : Prop :=
  ∀ p ∈ gs.players, p.timeUsed ≤ elapsedSeconds gs.startTime now

/-! ## Reconnection (`reconnectToGame`) -/

inductive ReconnectResult where
  | alreadyConnected
  | gameNotFound
  | cannotReconnect
  | rejoin (name : String)
deriving DecidableEq, Repr

/-- `isConnectedToGame(gameId)`: `this.gameState?.gameId === gameId && this.currentPlayerId !== null`. -/
def isConnectedToGame (gs : Option GameState) (currentPlayerId : Option String)
    (gameId : String) : Bool :=
  (match gs with | some g => g.gameId == gameId | none => false) && currentPlayerId.isSome

/-- `reconnectToGame(gameId)`: early return when already connected; throw
"Game not found" when no durable host advertisement (`jotto-host-<id>`) exists;
throw "Cannot reconnect: player name not found" when no remembered display name
(`jotto-player-name-<id>`) exists; otherwise re-attempt the join with the
remembered name. -/
def reconnectToGame (gs : Option GameState) (currentPlayerId : Option String)
    (hostRecord : Option String) (savedPlayerName : Option String)
    (gameId : String) : ReconnectResult :=
  if isConnectedToGame gs currentPlayerId gameId then ReconnectResult.alreadyConnected
  else if hostRecord.isNone then ReconnectResult.gameNotFound
  else
    match savedPlayerName with
    | none => ReconnectResult.cannotReconnect
    | some n => ReconnectResult.rejoin n

/-! ## Concrete fixtures -/

/-- The host player of a freshly created game. -/
def alicePlayer : Player :=
  { id := "h1", name := "Alice", guesses := [], timeUsed := 0,
    status := PlayerStatus.playing, joinedAt := 1000 }

/-- A second player requesting to join. -/
def bobPlayer : Player :=
  { id := "p2", name := "Bob", guesses := [], timeUsed := 0,
    status := PlayerStatus.playing, joinedAt := 100000 }

/-- The state `createGame("HOUSE", "Alice")` builds at clock reading 1000. -/
def demoGame : GameState :=
  { gameId := "G1", hostWord := "HOUSE", players := [alicePlayer],
    status := SessionStatus.waiting, startTime := some 1000 }

/-- A player sharing `alicePlayer`'s id `"x"` under a different name. -/
def aliceX : Player :=
  { id := "x", name := "Alice", guesses := [], timeUsed := 0,
    status := PlayerStatus.playing, joinedAt := 1000 }

/-- A join request reusing id `"x"` with the fresh name `"Bob"`. -/
def bobX : Player :=
  { id := "x", name := "Bob", guesses := [], timeUsed := 0,
    status := PlayerStatus.playing, joinedAt := 2000 }

/-- A game holding only `aliceX`. -/
def dupIdGame : GameState :=
  { gameId := "G2", hostWord := "HOUSE", players := [aliceX],
    status := SessionStatus.waiting, startTime := some 1000 }

/-- A join request whose name collides with `aliceX`'s. -/
def aliceClone : Player :=
  { id := "y", name := "Alice", guesses := [], timeUsed := 0,
    status := PlayerStatus.playing, joinedAt := 3000 }

/-- A player who has already finished. -/
def finPlayer : Player :=
  { id := "f1", name := "Finn", guesses := [], timeUsed := 7,
    status := PlayerStatus.finished, joinedAt := 1000 }

/-- A game whose only player is already finished. -/
def finGame : GameState :=
  { gameId := "G3", hostWord := "HOUSE", players := [finPlayer, alicePlayer],
    status := SessionStatus.playing, startTime := some 1000 }

/-! ## The scoring function as a multiset intersection -/

theorem countOcc_coe (l : List Char) (c : Char) :
    Multiset.count c (↑l : Multiset Char) = countOcc l c := by
  induction l with
  | nil => simp [countOcc]
  | cons a l ih =>
    by_cases hac : a = c
    · subst hac
      simpa [countOcc, List.filter_cons, Multiset.count_cons] using ih
    · have : (↑(a :: l) : Multiset Char) = a ::ₘ ↑l := rfl
      rw [this, Multiset.count_cons, if_neg (fun hca => hac hca.symm)]
      simpa [countOcc, List.filter_cons, hac] using ih

theorem foldl_add_section (f : Char → Nat) :
    ∀ (L : List Char) (acc : Nat), L.foldl (fun a c => a + f c) acc = acc + (L.map f).sum := by
  intro L
  induction L with
  | nil => intro acc; simp
  | cons x xs ih =>
    intro acc
    simp only [List.foldl_cons, List.map_cons, List.sum_cons]
    rw [ih (acc + f x), Nat.add_assoc]

theorem dedup_toFinset (l : List Char) : l.dedup.toFinset = l.toFinset := by
  ext a
  simp [List.mem_toFinset, List.mem_dedup]

/-- The fold in `calculateCommonLetters` computes the cardinality of the
multiset intersection of the two (lowercased) letter lists. -/
theorem commonCore_eq_card_inter (h g : List Char) :
    (g.dedup).foldl
      (fun acc c =>
        if countOcc h c ≠ 0 then acc + min (countOcc h c) (countOcc g c) else acc) 0
    = Multiset.card ((↑h : Multiset Char) ∩ ↑g) := by
  have hfun :
      (fun (acc : Nat) (c : Char) =>
        if countOcc h c ≠ 0 then acc + min (countOcc h c) (countOcc g c) else acc)
      = fun (acc : Nat) (c : Char) => acc + min (countOcc h c) (countOcc g c) := by
    funext acc c
    by_cases hc : countOcc h c = 0
    · simp [hc]
    · simp [hc]
  rw [hfun, foldl_add_section, Nat.zero_add]
  have hnodup : (g.dedup).Nodup := List.nodup_dedup g
  rw [← List.sum_toFinset _ hnodup, dedup_toFinset]
  have hsub : ∀ a ∈ (↑h : Multiset Char) ∩ ↑g, a ∈ g.toFinset := by
    intro a ha
    exact List.mem_toFinset.mpr (Multiset.mem_inter.mp ha).2
  rw [← Multiset.sum_count_eq_card hsub]
  refine Finset.sum_congr rfl ?_
  intro c _
  rw [Multiset.count_inter, countOcc_coe, countOcc_coe]

/-- `calculateCommonLetters` is the cardinality of the multiset intersection
of the lowercased letter multisets. -/
theorem calculateCommonLetters_eq_card_inter (s g : String) :
    calculateCommonLetters s g
      = Multiset.card ((↑(lcList s) : Multiset Char) ∩ ↑(lcList g)) :=
  commonCore_eq_card_inter (lcList s) (lcList g)

theorem card_coe_lcList (s : String) :
    Multiset.card (↑(lcList s) : Multiset Char) = s.length := by
  rw [Multiset.coe_card]
  simp [lcList]

/-! ## Claim theorems -/

/-- C5: for 5-letter secret/guess pairs, `calculateCommonLetters` is at most
5, symmetric in its two arguments, and equals 5 exactly when the two words
are anagrams of each other in the multiset sense — equality of the
(case-insensitively lowered, as the function lowercases both inputs) letter
multisets, not only when the words are equal. -/
theorem commonLetters_bounded_symmetric_anagram (s g : String)
    (hs : s.length = 5) (hg : g.length = 5) :
    calculateCommonLetters s g ≤ 5
    ∧ calculateCommonLetters s g = calculateCommonLetters g s
    ∧ (calculateCommonLetters s g = 5
        ↔ (↑(lcList s) : Multiset Char) = ↑(lcList g)) := by
  have hcs : Multiset.card (↑(lcList s) : Multiset Char) = 5 := by rw [card_coe_lcList, hs]
  have hcg : Multiset.card (↑(lcList g) : Multiset Char) = 5 := by rw [card_coe_lcList, hg]
  refine ⟨?_, ?_, ?_⟩
  · rw [calculateCommonLetters_eq_card_inter]
    calc Multiset.card ((↑(lcList s) : Multiset Char) ∩ ↑(lcList g))
        ≤ Multiset.card (↑(lcList g) : Multiset Char) :=
          Multiset.card_le_card (Multiset.inter_le_right _ _)
      _ = 5 := hcg
  · rw [calculateCommonLetters_eq_card_inter, calculateCommonLetters_eq_card_inter]
    exact congrArg Multiset.card (Multiset.inter_comm _ _)
  · rw [calculateCommonLetters_eq_card_inter]
    constructor
    · intro h5
      have h1 : (↑(lcList s) : Multiset Char) ∩ ↑(lcList g) = ↑(lcList s) :=
        Multiset.eq_of_le_of_card_le (Multiset.inter_le_left _ _) (by rw [hcs, h5])
      have hle : (↑(lcList s) : Multiset Char) ≤ ↑(lcList g) :=
        h1 ▸ Multiset.inter_le_right _ _
      exact Multiset.eq_of_le_of_card_le hle (by rw [hcg, hcs])
    · intro heq
      rw [heq]
      have hidem : (↑(lcList g) : Multiset Char) ∩ ↑(lcList g) = ↑(lcList g) := by
        ext a
        simp [Multiset.count_inter]
      rw [hidem, hcg]

/-- C5 witness: the pair `"HOUSE"`/`"MOUSE"` satisfies the bound, the
symmetry, and the anagram characterisation (their common-letter count is 4,
and indeed their letter multisets differ). -/
theorem commonLetters_bounded_symmetric_anagram_witness :
    calculateCommonLetters "HOUSE" "MOUSE" ≤ 5
    ∧ calculateCommonLetters "HOUSE" "MOUSE" = calculateCommonLetters "MOUSE" "HOUSE"
    ∧ (calculateCommonLetters "HOUSE" "MOUSE" = 5
        ↔ (↑(lcList "HOUSE") : Multiset Char) = ↑(lcList "MOUSE")) :=
  commonLetters_bounded_symmetric_anagram "HOUSE" "MOUSE" (by decide) (by decide)

/-- C8: `validateWord` returns `true` iff the word has exactly 5 characters,
all alphabetic; it rejects any other length or any non-alphabetic character
and accepts mixed-case alphabetic words. -/
theorem validateWord_iff (w : String) :
    validateWord w = true ↔ (w.length = 5 ∧ ∀ c ∈ w.data, isAlphaChar c = true) := by
  unfold validateWord regexAlphaTest
  simp only [Bool.and_eq_true, beq_iff_eq, Bool.not_eq_true', List.all_eq_true,
    List.isEmpty_eq_false_iff_exists_mem]
  constructor
  · rintro ⟨h5, _, hall⟩
    exact ⟨h5, hall⟩
  · rintro ⟨h5, hall⟩
    refine ⟨h5, ⟨?_, hall⟩⟩
    have hlen : w.data.length = 5 := h5
    cases hd : w.data with
    | nil => rw [hd] at hlen; simp at hlen
    | cons c cs => exact ⟨c, by simp [hd]⟩

/-- C8 witness: the mixed-case alphabetic word `"Hello"` is accepted. -/
theorem validateWord_iff_witness : validateWord "Hello" = true :=
  (validateWord_iff "Hello").mpr ⟨by decide, by decide⟩

/-- Every base-36 digit, uppercased, is a decimal digit or uppercase letter. -/
theorem digit36_toUpper_ok : ∀ d : Nat, d < 36 → isUpperOrDigit ((digit36 d).toUpper) = true := by
  decide

/-- C10: for every randomness input (list of base-36 fraction digits),
`generateGameId` yields only digits and uppercase letters and at most 6
characters — and some inputs yield strictly fewer than 6, so the length is
not fixed. -/
theorem generateGameId_charset_length :
    (∀ ds : List Nat, (∀ d ∈ ds, d < 36) →
      (generateGameId ds).length ≤ 6 ∧
        ∀ c ∈ (generateGameId ds).data, isUpperOrDigit c = true)
    ∧ ∃ ds : List Nat, (∀ d ∈ ds, d < 36) ∧ (generateGameId ds).length < 6 := by
  constructor
  · intro ds hds
    constructor
    · show ((((toString36frac ds).drop 2).take 6).map Char.toUpper).length ≤ 6
      rw [List.length_map, List.length_take]
      exact min_le_left _ _
    · intro c hc
      have hc' : c ∈ (((toString36frac ds).drop 2).take 6).map Char.toUpper := hc
      rw [List.mem_map] at hc'
      obtain ⟨x, hx, rfl⟩ := hc'
      have hx2 : x ∈ (toString36frac ds).drop 2 := List.mem_of_mem_take hx
      cases hemp : ds.isEmpty with
      | true =>
        rw [toString36frac, if_pos hemp] at hx2
        simp at hx2
      | false =>
        rw [toString36frac, if_neg (by simp [hemp])] at hx2
        have hx3 : x ∈ ds.map digit36 := hx2
        rw [List.mem_map] at hx3
        obtain ⟨d, hd, rfl⟩ := hx3
        exact digit36_toUpper_ok d (hds d hd)
  · exact ⟨[], by simp, by decide⟩

/-- C10 witness: a single-digit randomness input (e.g. `Math.random()` whose
base-36 expansion is `0.a`) obeys the bound, and the empty expansion
(`Math.random() = 0`) gives a game id shorter than 6 characters. -/
theorem generateGameId_charset_length_witness :
    (generateGameId [10, 11, 12]).length ≤ 6 ∧
      ∀ c ∈ (generateGameId [10, 11, 12]).data, isUpperOrDigit c = true :=
  generateGameId_charset_length.1 [10, 11, 12] (by decide)

/-- C1 (the code violates the claim): the "safe" snapshot substitutes the
placeholder only when `isHost` is `false`, yet `broadcastGameState` only ever
runs on the host (every call site is guarded by `isHost`), so every broadcast
`game:state` payload — here the one sent while admitting Bob — carries the
real secret word, not `"****"`. -/
theorem broadcast_carries_real_secret :
    (∀ gs : GameState, (safeGameState true gs).hostWord = gs.hostWord)
    ∧ (broadcastStateMsgs (handleJoinRequest demoGame bobPlayer).2).map GameState.hostWord
        = ["HOUSE"]
    ∧ "HOUSE" ≠ "****" :=
  ⟨fun _ => rfl, by decide, by decide⟩

/-- C3 (the code violates the claim): admitting a join request
(`handleJoinRequest`, the handler registered for `game:join-request`) never
changes `status` or `startTime`; in particular admitting the second player
leaves the fresh game `waiting`.  The `waiting → playing` transition lives
only in `handlePlayerJoined`, which does fire it when invoked — but the host
never receives its own `game:player-joined` broadcast, so the admission path
never reaches it. -/
theorem joinRequest_never_starts_game :
    (∀ (gs : GameState) (p : Player),
      (handleJoinRequest gs p).1.status = gs.status
        ∧ (handleJoinRequest gs p).1.startTime = gs.startTime)
    ∧ (handleJoinRequest demoGame bobPlayer).1.players.length = 2
    ∧ (handleJoinRequest demoGame bobPlayer).1.status = SessionStatus.waiting
    ∧ (handleJoinRequest demoGame bobPlayer).1.startTime = some 1000
    ∧ (handlePlayerJoined demoGame 100000 bobPlayer).1.status = SessionStatus.playing
    ∧ (handlePlayerJoined demoGame 100000 bobPlayer).1.startTime = some 100000 := by
  refine ⟨fun gs p => ?_, by decide, by decide, by decide, by decide, by decide⟩
  unfold handleJoinRequest
  cases h : gs.players.find? (fun q => q.name == p.name) <;> simp [h]

/-- C4 counterexample: a join request reusing the existing id `"x"` under a
fresh name is admitted, leaving two player records with id `"x"`. -/
theorem joinRequest_duplicate_id_admitted :
    ((handleJoinRequest dupIdGame bobX).1.players.map Player.id) = ["x", "x"]
    ∧ ¬ (((handleJoinRequest dupIdGame bobX).1.players.map Player.id).Nodup) := by
  constructor
  · decide
  · decide

/-- C4 amended: the rejection keys on the display name, not the id — a join
request whose name matches an existing player's is rejected with a directed
error and leaves the state unchanged, so player names (not ids) remain unique
within a session after every admission. -/
theorem joinRequest_name_uniqueness :
    (∀ (gs : GameState) (p q : Player), q ∈ gs.players → q.name = p.name →
      handleJoinRequest gs p
        = (gs, [Msg.error p.id "Player name already taken in this game."]))
    ∧ (∀ (gs : GameState) (p : Player), (gs.players.map Player.name).Nodup →
        (((handleJoinRequest gs p).1.players.map Player.name)).Nodup) := by
  constructor
  · intro gs p q hq hname
    unfold handleJoinRequest
    cases h : gs.players.find? (fun r => r.name == p.name) with
    | none =>
      rw [List.find?_eq_none] at h
      exact absurd (by simp [hname]) (h q hq)
    | some r => rfl
  · intro gs p hnd
    unfold handleJoinRequest
    cases h : gs.players.find? (fun r => r.name == p.name) with
    | none =>
      rw [List.find?_eq_none] at h
      simp only [List.map_append, List.map_cons, List.map_nil]
      rw [List.nodup_append]
      refine ⟨hnd, List.nodup_singleton _, ?_⟩
      intro a ha hb
      rw [List.mem_singleton] at hb
      rw [List.mem_map] at ha
      obtain ⟨q, hq, rfl⟩ := ha
      exact h q hq (by simp [hb])
    | some r => exact hnd

/-- C4 witness: a join request duplicating the name `"Alice"` is rejected and
the game is unchanged. -/
theorem joinRequest_name_uniqueness_witness :
    handleJoinRequest dupIdGame aliceClone
      = (dupIdGame, [Msg.error "y" "Player name already taken in this game."]) :=
  joinRequest_name_uniqueness.1 dupIdGame aliceClone aliceX (by decide) (by decide)

/-- C6: processing a guess for an unknown player id, or for a player whose
status is already `finished`, is a complete no-op — the state is unchanged
and no message is sent. -/
theorem guess_noop_for_finished_or_unknown (gs : GameState) (now : Nat) (pid w : String)
    (h : gs.players.find? (fun p => p.id == pid) = none
       ∨ ∃ q, gs.players.find? (fun p => p.id == pid) = some q
           ∧ q.status = PlayerStatus.finished) :
    handlePlayerGuess gs now pid w = (gs, []) := by
  unfold handlePlayerGuess
  rcases h with h | ⟨q, hq, hfin⟩
  · rw [h]
  · rw [hq]
    simp [hfin]

/-- C6 witness: a guess by the finished player `"f1"` leaves `finGame`
untouched and sends nothing. -/
theorem guess_noop_witness :
    handlePlayerGuess finGame 5000 "f1" "HOUSE" = (finGame, []) :=
  guess_noop_for_finished_or_unknown finGame 5000 "f1" "HOUSE"
    (Or.inr ⟨finPlayer, by decide, by decide⟩)

/-- A filter keeps the whole list exactly when every element passes. -/
theorem filter_length_eq_iff {α : Type} (q : α → Bool) (l : List α) :
    ((l.filter q).length = l.length) ↔ ∀ a ∈ l, q a = true := by
  constructor
  · intro hlen
    exact List.filter_eq_self.mp ((List.filter_sublist l).eq_of_length hlen)
  · intro hall
    rw [List.filter_eq_self.mpr hall]

/-- The all-finished test of `handlePlayerGuess` (`finishedPlayers.length ===
activePlayers.length` deciding the new status) holds exactly when every
non-disconnected player is finished. -/
theorem status_iff_all_finished (l : List Player) (st : SessionStatus)
    (hst : st ≠ SessionStatus.finished) :
    ((if ((l.filter (fun p => decide (p.status ≠ PlayerStatus.disconnected))).filter
            (fun p => decide (p.status = PlayerStatus.finished))).length
          == (l.filter (fun p => decide (p.status ≠ PlayerStatus.disconnected))).length
       then SessionStatus.finished else st) = SessionStatus.finished)
    ↔ ∀ p ∈ l, p.status ≠ PlayerStatus.disconnected → p.status = PlayerStatus.finished := by
  have hkey :
      (((l.filter (fun p => decide (p.status ≠ PlayerStatus.disconnected))).filter
          (fun p => decide (p.status = PlayerStatus.finished))).length
        = (l.filter (fun p => decide (p.status ≠ PlayerStatus.disconnected))).length)
      ↔ ∀ p ∈ l, p.status ≠ PlayerStatus.disconnected → p.status = PlayerStatus.finished := by
    rw [filter_length_eq_iff]
    constructor
    · intro hall p hp hpd
      have hmem : p ∈ l.filter (fun p => decide (p.status ≠ PlayerStatus.disconnected)) :=
        List.mem_filter.mpr ⟨hp, by simpa using hpd⟩
      simpa using hall p hmem
    · intro hall p hp
      have hp' := List.mem_filter.mp hp
      have hpd : p.status ≠ PlayerStatus.disconnected := by simpa using hp'.2
      simpa using hall p hp'.1 hpd
  by_cases hb :
      (((l.filter (fun p => decide (p.status ≠ PlayerStatus.disconnected))).filter
          (fun p => decide (p.status = PlayerStatus.finished))).length
        == (l.filter (fun p => decide (p.status ≠ PlayerStatus.disconnected))).length) = true
  · rw [if_pos hb]
    simp only [true_iff]
    exact hkey.mp (by simpa using hb)
  · rw [if_neg hb]
    constructor
    · intro h
      exact absurd h hst
    · intro h
      exact absurd (by simpa using hkey.mpr h) hb

/-- C2 counterexample: in a game where Finn is `finished` and Alice is
`playing`, marking Alice disconnected leaves the session status `playing`
although every non-disconnected player is now `finished` — the disconnect
handler never re-evaluates the all-finished check. -/
theorem disconnect_skips_finish_check :
    (handlePlayerLeft finGame "h1").1.status = SessionStatus.playing
    ∧ ((handlePlayerLeft finGame "h1").1.players.map Player.status)
        = [PlayerStatus.finished, PlayerStatus.disconnected]
    ∧ SessionStatus.playing ≠ SessionStatus.finished := by
  decide

/-- C2 amended: the all-finished check runs only inside guess processing on an
exact match — there, the resulting status is `finished` iff every
non-disconnected player is then `finished` (disconnected players excluded) —
while marking a player disconnected never changes the session status. -/
theorem finish_check_on_exact_match :
    (∀ (gs : GameState) (now : Nat) (pid w : String) (player : Player),
      gs.players.find? (fun p => p.id == pid) = some player →
      player.status ≠ PlayerStatus.finished →
      validateWord w = true →
      isWordCorrect gs.hostWord w = true →
      gs.status ≠ SessionStatus.finished →
      ((handlePlayerGuess gs now pid w).1.status = SessionStatus.finished
        ↔ ∀ p ∈ (handlePlayerGuess gs now pid w).1.players,
            p.status ≠ PlayerStatus.disconnected → p.status = PlayerStatus.finished))
    ∧ (∀ (gs : GameState) (pid : String),
        (handlePlayerLeft gs pid).1.status = gs.status) := by
  constructor
  · intro gs now pid w player hfind hne hw hcor hst
    unfold handlePlayerGuess
    rw [hfind]
    dsimp only
    rw [if_neg hne]
    simp only [hw, hcor, Bool.not_true, Bool.true_and, Bool.false_eq_true,
      eq_self_iff_true, if_false, if_true]
    exact status_iff_all_finished _ gs.status hst
  · intro gs pid
    unfold handlePlayerLeft
    cases h : gs.players.find? (fun p => p.id == pid) <;> simp [h]

/-- C2 witness: Alice's exact-match guess in the one-player fresh game makes
every non-disconnected player finished, so the session status becomes
`finished`. -/
theorem finish_check_on_exact_match_witness :
    (handlePlayerGuess demoGame 5000 "h1" "HOUSE").1.status = SessionStatus.finished :=
  (finish_check_on_exact_match.1 demoGame 5000 "h1" "HOUSE" alicePlayer
    (by decide) (by decide) (by decide) (by decide) (by decide)).mpr (by decide)

/-! ### timeUsed monotonicity infrastructure -/

theorem elapsedSeconds_mono (st : Option Nat) {n1 n2 : Nat} (h : n1 ≤ n2) :
    elapsedSeconds st n1 ≤ elapsedSeconds st n2 := by
  cases st with
  | none => exact le_refl _
  | some s =>
    by_cases hs : s = 0
    · simp [elapsedSeconds, hs]
    · simp only [elapsedSeconds, if_neg hs]
      exact Nat.div_le_div_right (Nat.sub_le_sub_right h s)

theorem updateFirst_mem {α : Type} {pred : α → Bool} {f : α → α} {l : List α} {p : α}
    (hp : p ∈ updateFirst pred f l) : p ∈ l ∨ ∃ q, q ∈ l ∧ p = f q := by
  induction l with
  | nil => simp [updateFirst] at hp
  | cons x xs ih =>
    rw [updateFirst] at hp
    by_cases hx : pred x = true
    · rw [if_pos hx] at hp
      rcases List.mem_cons.mp hp with h | h
      · exact Or.inr ⟨x, List.mem_cons_self x xs, h⟩
      · exact Or.inl (List.mem_cons_of_mem x h)
    · rw [if_neg hx] at hp
      rcases List.mem_cons.mp hp with h | h
      · exact Or.inl (by rw [h]; exact List.mem_cons_self x xs)
      · rcases ih h with h2 | ⟨q, hq, hpq⟩
        · exact Or.inl (List.mem_cons_of_mem x h2)
        · exact Or.inr ⟨q, List.mem_cons_of_mem x hq, hpq⟩

theorem find?_updateFirst_self {α : Type} (pr : α → Bool) (f : α → α)
    (hf : ∀ a, pr (f a) = pr a) (l : List α) :
    (updateFirst pr f l).find? pr = (l.find? pr).map f := by
  induction l with
  | nil => rfl
  | cons x xs ih =>
    rw [updateFirst]
    by_cases hx : pr x = true
    · rw [if_pos hx, List.find?_cons_of_pos _ (by rw [hf]; exact hx),
        List.find?_cons_of_pos _ hx, Option.map_some']
    · rw [if_neg hx, List.find?_cons_of_neg _ hx, List.find?_cons_of_neg _ hx, ih]

theorem find?_updateFirst_other {α : Type} (q pr : α → Bool) (f : α → α)
    (hdisj : ∀ a, pr a = true → q a = false) (hq : ∀ a, q (f a) = q a) (l : List α) :
    (updateFirst pr f l).find? q = l.find? q := by
  induction l with
  | nil => rfl
  | cons x xs ih =>
    rw [updateFirst]
    by_cases hx : pr x = true
    · have hqx : q x = false := hdisj x hx
      rw [if_pos hx, List.find?_cons_of_neg _ (by simp [hq, hqx]),
        List.find?_cons_of_neg _ (by simp [hqx])]
    · rw [if_neg hx]
      by_cases hqx : q x = true
      · rw [List.find?_cons_of_pos _ hqx, List.find?_cons_of_pos _ hqx]
      · rw [List.find?_cons_of_neg _ hqx, List.find?_cons_of_neg _ hqx, ih]

/-- An `updateFirst` that stamps `timeUsed` to a bound `E` dominating every
previous value preserves the bound and never decreases any player's
`timeUsed`. -/
theorem updateFirst_set_time (l : List Player) (gid : String) (f : Player → Player)
    (hfid : ∀ a, (f a).id = a.id) (E : Nat) (hftime : ∀ a, (f a).timeUsed = E)
    (hinv : ∀ p ∈ l, p.timeUsed ≤ E) :
    (∀ p ∈ updateFirst (fun p => p.id == gid) f l, p.timeUsed ≤ E)
    ∧ ∀ (pid : String) (t : Nat),
        (l.find? (fun p => p.id == pid)).map Player.timeUsed = some t →
        ∃ t', ((updateFirst (fun p => p.id == gid) f l).find?
            (fun p => p.id == pid)).map Player.timeUsed = some t' ∧ t ≤ t' := by
  constructor
  · intro p hp
    rcases updateFirst_mem hp with h | ⟨q, hq, rfl⟩
    · exact hinv p h
    · rw [hftime]
  · intro pid t ht
    rcases Option.map_eq_some'.mp ht with ⟨a, ha, hat⟩
    by_cases hpid : gid = pid
    · subst hpid
      rw [find?_updateFirst_self _ f (fun a => by rw [hfid]) l, ha, Option.map_some',
        Option.map_some']
      refine ⟨(f a).timeUsed, rfl, ?_⟩
      rw [hftime, ← hat]
      exact hinv a (List.mem_of_find?_eq_some ha)
    · rw [find?_updateFirst_other _ _ f ?_ (fun a => by rw [hfid]) l]
      · exact ⟨t, ht, le_refl t⟩
      · intro a hga
        rw [beq_iff_eq] at hga
        rw [beq_eq_false_iff_ne, hga]
        exact hpid

/-- An `updateFirst` that leaves `timeUsed` (and ids) unchanged preserves
every player's recorded `timeUsed` and any upper bound on it. -/
theorem updateFirst_keep_time (l : List Player) (gid : String) (g : Player → Player)
    (hgid : ∀ a, (g a).id = a.id) (hgtime : ∀ a, (g a).timeUsed = a.timeUsed) :
    (∀ (pid : String) (t : Nat),
        (l.find? (fun p => p.id == pid)).map Player.timeUsed = some t →
        ((updateFirst (fun p => p.id == gid) g l).find?
            (fun p => p.id == pid)).map Player.timeUsed = some t)
    ∧ ∀ E, (∀ p ∈ l, p.timeUsed ≤ E) →
        ∀ p ∈ updateFirst (fun p => p.id == gid) g l, p.timeUsed ≤ E := by
  constructor
  · intro pid t ht
    rcases Option.map_eq_some'.mp ht with ⟨a, ha, hat⟩
    by_cases hpid : gid = pid
    · subst hpid
      rw [find?_updateFirst_self _ g (fun a => by rw [hgid]) l, ha, Option.map_some',
        Option.map_some', hgtime, hat]
    · rw [find?_updateFirst_other _ _ g ?_ (fun a => by rw [hgid]) l]
      · exact ht
      · intro a hga
        rw [beq_iff_eq] at hga
        rw [beq_eq_false_iff_ne, hga]
        exact hpid
  · intro E hE p hp
    rcases updateFirst_mem hp with h | ⟨q, hq, rfl⟩
    · exact hE p h
    · rw [hgtime]
      exact hE q hq

/-- The two-stage player update of `handlePlayerGuess` (record the guess and
stamp `timeUsed`; on an exact match also set the status) keeps every
`timeUsed` bounded by the stamped value and never decreases one. -/
theorem guess_update_inv (l : List Player) (gid : String) (f g : Player → Player)
    (hfid : ∀ a, (f a).id = a.id) (hgid : ∀ a, (g a).id = a.id)
    (hgtime : ∀ a, (g a).timeUsed = a.timeUsed) (E : Nat)
    (hftime : ∀ a, (f a).timeUsed = E)
    (hinv : ∀ p ∈ l, p.timeUsed ≤ E) (c : Bool) :
    (∀ p ∈ (if c then updateFirst (fun p => p.id == gid) g
                    (updateFirst (fun p => p.id == gid) f l)
            else updateFirst (fun p => p.id == gid) f l), p.timeUsed ≤ E)
    ∧ ∀ (pid : String) (t : Nat),
        (l.find? (fun p => p.id == pid)).map Player.timeUsed = some t →
        ∃ t', ((if c then updateFirst (fun p => p.id == gid) g
                    (updateFirst (fun p => p.id == gid) f l)
               else updateFirst (fun p => p.id == gid) f l).find?
                 (fun p => p.id == pid)).map Player.timeUsed = some t' ∧ t ≤ t' := by
  cases c with
  | false =>
    rw [if_neg Bool.false_ne_true]
    exact updateFirst_set_time l gid f hfid E hftime hinv
  | true =>
    rw [if_pos rfl]
    have hA := updateFirst_set_time l gid f hfid E hftime hinv
    have hB := updateFirst_keep_time (updateFirst (fun p => p.id == gid) f l) gid g hgid hgtime
    constructor
    · exact hB.2 E hA.1
    · intro pid t ht
      rcases hA.2 pid t ht with ⟨t1, ht1, htle⟩
      exact ⟨t1, hB.1 pid t1 ht1, htle⟩

/-- One admissible host step preserves `startTime`, keeps the time invariant,
and never decreases a player's recorded `timeUsed`. -/
theorem hostStep_timeUsed (now : Nat) (e : HostEvent) (gs : GameState)
    (he : admissibleEvent e = true) (hinv : TimeInv gs now) :
    (hostStep now e gs).1.startTime = gs.startTime
    ∧ TimeInv (hostStep now e gs).1 now
    ∧ ∀ (pid : String) (t : Nat), timeUsedOf gs pid = some t →
        ∃ t', timeUsedOf (hostStep now e gs).1 pid = some t' ∧ t ≤ t' := by
  cases e with
  | playerJoined p => simp [admissibleEvent] at he
  | joinReq p =>
    have hp0 : p.timeUsed = 0 := by simpa [admissibleEvent] using he
    simp only [hostStep]
    unfold handleJoinRequest
    cases hf : gs.players.find? (fun q => q.name == p.name) with
    | some q => exact ⟨rfl, hinv, fun pid t ht => ⟨t, ht, le_refl t⟩⟩
    | none =>
      dsimp only
      refine ⟨rfl, ?_, ?_⟩
      · intro q hq
        rcases List.mem_append.mp hq with h | h
        · exact hinv q h
        · rw [List.mem_singleton.mp h, hp0]
          exact Nat.zero_le _
      · intro pid t ht
        refine ⟨t, ?_, le_refl t⟩
        unfold timeUsedOf at ht ⊢
        rcases Option.map_eq_some'.mp ht with ⟨a, ha, hat⟩
        dsimp only
        rw [List.find?_append, ha]
        simp [hat]
  | guessEv gid w =>
    simp only [hostStep]
    unfold handlePlayerGuess
    cases hf : gs.players.find? (fun p => p.id == gid) with
    | none => exact ⟨rfl, hinv, fun pid t ht => ⟨t, ht, le_refl t⟩⟩
    | some player =>
      dsimp only
      by_cases hfin : player.status = PlayerStatus.finished
      · rw [if_pos hfin]
        exact ⟨rfl, hinv, fun pid t ht => ⟨t, ht, le_refl t⟩⟩
      · rw [if_neg hfin]
        by_cases hv : validateWord w = true
        · rw [if_neg (by simp [hv])]
          refine ⟨rfl, ?_, ?_⟩
          · unfold TimeInv
            dsimp only
            refine (guess_update_inv gs.players gid _ _ ?_ ?_ ?_
              (elapsedSeconds gs.startTime now) ?_ hinv
              (isWordCorrect gs.hostWord w)).1 <;> exact fun a => rfl
          · intro pid t ht
            unfold timeUsedOf at ht ⊢
            dsimp only
            refine (guess_update_inv gs.players gid _ _ ?_ ?_ ?_
              (elapsedSeconds gs.startTime now) ?_ hinv
              (isWordCorrect gs.hostWord w)).2 pid t ht <;> exact fun a => rfl
        · have hv' : validateWord w = false := by
            cases hvw : validateWord w
            · rfl
            · exact absurd hvw hv
          rw [if_pos (by simp [hv'])]
          exact ⟨rfl, hinv, fun pid t ht => ⟨t, ht, le_refl t⟩⟩
  | leftEv lid =>
    simp only [hostStep]
    unfold handlePlayerLeft
    cases hf : gs.players.find? (fun p => p.id == lid) with
    | none => exact ⟨rfl, hinv, fun pid t ht => ⟨t, ht, le_refl t⟩⟩
    | some q =>
      dsimp only
      refine ⟨rfl, ?_, ?_⟩
      · unfold TimeInv
        dsimp only
        refine (updateFirst_keep_time gs.players lid _ ?_ ?_).2 _ hinv <;> exact fun a => rfl
      · intro pid t ht
        unfold timeUsedOf at ht ⊢
        dsimp only
        refine ⟨t, (updateFirst_keep_time gs.players lid _ ?_ ?_).1 pid t ht, le_refl t⟩
          <;> exact fun a => rfl

/-- C7 counterexample: the host guesses during `waiting` at clock 61000
(`timeUsed = 60`); then a `game:player-joined` event admits Bob, firing the
`waiting → playing` transition and re-stamping `startTime` to 100000; the
host's next guess at 101000 writes `timeUsed = 1 < 60` — a decrease. -/
theorem timeUsed_decrease_counterexample :
    createGame "HOUSE" "Alice" "h1" "G1" 1000 = Except.ok demoGame
    ∧ timeUsedOf (runHost [(61000, HostEvent.guessEv "h1" "WRONG")] demoGame) "h1" = some 60
    ∧ timeUsedOf (runHost [(61000, HostEvent.guessEv "h1" "WRONG"),
        (100000, HostEvent.playerJoined bobPlayer),
        (101000, HostEvent.guessEv "h1" "GRAPE")] demoGame) "h1" = some 1
    ∧ (1 : Nat) < 60 := by
  refine ⟨by rfl, by decide, by decide, by decide⟩

/-- C7 amended: each write of `timeUsed` is `floor((now - startTime)/1000)`,
non-decreasing in the clock while `startTime` is unchanged; along every trace
of join-request admissions (fresh player records), guesses and disconnects
with non-decreasing clocks — the events that never re-stamp `startTime` —
every player's `timeUsed` is monotonically non-decreasing.  (A
`game:player-joined` event processed while `waiting` re-stamps `startTime`
and can decrease a later write, as the counterexample shows.) -/
theorem timeUsed_monotone :
    ∀ (evs : List (Nat × HostEvent)) (gs : GameState) (t0 : Nat),
      chrono t0 evs = true →
      (∀ e ∈ evs, admissibleEvent e.2 = true) →
      TimeInv gs t0 →
      ∀ (pid : String) (t : Nat), timeUsedOf gs pid = some t →
        ∃ t', timeUsedOf (runHost evs gs) pid = some t' ∧ t ≤ t' := by
  intro evs
  induction evs with
  | nil =>
    intro gs t0 _ _ _ pid t ht
    exact ⟨t, ht, le_refl t⟩
  | cons ev rest ih =>
    intro gs t0 hchrono hadm hinv pid t ht
    obtain ⟨n, e⟩ := ev
    rw [chrono, Bool.and_eq_true] at hchrono
    have h1 : t0 ≤ n := by simpa using hchrono.1
    have h2 : chrono n rest = true := hchrono.2
    have hinvn : TimeInv gs n := fun p hp =>
      le_trans (hinv p hp) (elapsedSeconds_mono gs.startTime h1)
    have hstep := hostStep_timeUsed n e gs (hadm (n, e) (List.mem_cons_self _ _)) hinvn
    rcases hstep.2.2 pid t ht with ⟨t1, ht1, hle1⟩
    rcases ih (hostStep n e gs).1 n h2
        (fun e' he' => hadm e' (List.mem_cons_of_mem _ he')) hstep.2.1 pid t1 ht1
      with ⟨t', ht', hle2⟩
    rw [runHost]
    exact ⟨t', ht', le_trans hle1 hle2⟩

/-- C7 witness: along the admissible one-guess trace from the fresh game, the
host's `timeUsed` never decreases below its initial 0. -/
theorem timeUsed_monotone_witness :
    ∃ t', timeUsedOf (runHost [(61000, HostEvent.guessEv "h1" "WRONG")] demoGame) "h1"
        = some t' ∧ 0 ≤ t' :=
  timeUsed_monotone [(61000, HostEvent.guessEv "h1" "WRONG")] demoGame 1000
    (by decide) (by decide) (by unfold TimeInv; decide) "h1" 0 (by decide)

/-- C9 counterexample: with no durable name record AND no host advertisement,
reconnection fails with the game-not-found condition, not `CannotReconnect`. -/
theorem reconnect_fails_gameNotFound :
    reconnectToGame none none none none "G1" = ReconnectResult.gameNotFound
    ∧ ReconnectResult.gameNotFound ≠ ReconnectResult.cannotReconnect := by
  decide

/-- C9 amended: provided the caller is not already connected to the game and a
live host advertisement exists, reconnection with no remembered display name
fails with `CannotReconnect` (no join is attempted), and with a remembered
name it re-attempts the join using that name. -/
theorem reconnect_requires_saved_name (gs : Option GameState) (cpid : Option String)
    (adv : String) (gid : String)
    (hconn : isConnectedToGame gs cpid gid = false) :
    reconnectToGame gs cpid (some adv) none gid = ReconnectResult.cannotReconnect
    ∧ ∀ n, reconnectToGame gs cpid (some adv) (some n) gid = ReconnectResult.rejoin n := by
  unfold reconnectToGame
  rw [hconn]
  simp

/-- C9 witness: a disconnected process with a host advertisement but no saved
name gets `CannotReconnect`; with a saved name it rejoins under it. -/
theorem reconnect_requires_saved_name_witness :
    reconnectToGame none none (some "host-rec") none "G1" = ReconnectResult.cannotReconnect
    ∧ ∀ n, reconnectToGame none none (some "host-rec") (some n) "G1"
        = ReconnectResult.rejoin n :=
  reconnect_requires_saved_name none none "host-rec" "G1" (by decide)

end Jotto
